import Mathlib

/-!
Verification of `animation_03_correlation_cmip6_era5.ipynb`.

The notebook is a linear analysis script: it loads CMIP6 and ERA5 gridded
precipitation data, aligns the time axes (idealized 360-day calendars),
re-centers the ERA5 longitudes, interpolates ERA5 onto the CMIP6 grid,
computes a per-grid-cell Pearson correlation for each year 1979..2014,
renders one frame image per year, assembles a GIF from the lexically sorted
frame files, and deletes the frames.

The shallow embedding below models:
* `get_corrcoef` (cell 13: `np.corrcoef(inarray1, inarray2)[0, 1]`) over
  exact rationals, with `Option ℝ` as result type: `none` stands for the
  floating-point NaN that numpy produces when a variance (a diagonal entry
  of the covariance matrix) is zero, and `some r` for the finite value
  `c01 / (sqrt c00 * sqrt c11)` clipped to `[-1, 1]` as `np.corrcoef` does.
  The surrounding `np.seterr(divide='ignore', invalid='ignore')` means these
  NaN outcomes are warnings-suppressed values, not exceptions; accordingly
  the embedding is a total function.
* the two assigned time axes and xarray year slicing (cells 5, 9, 19);
* the frame-file naming loop, Python `sorted` + `glob` GIF assembly, and the
  cleanup loop (cells 19, 21);
* xarray `.interp(lat=new_lat, lon=new_lon)` as separable 1-D piecewise
  linear interpolation with NaN (`none`) outside the source range (cell 11);
* the longitude re-centering `lon + 180` (cell 9).
-/

/-! ## Cell 13: `get_corrcoef` -/

/-- Arithmetic mean as `np.mean` computes it (sum divided by length; for the
empty list ℚ division by zero yields 0, matching no claim-relevant case). -/
def mean (xs : List ℚ) : ℚ := xs.sum / xs.length

/-- Entry of the sample covariance matrix computed by `np.cov` inside
`np.corrcoef`: sum of products of deviations divided by `N - 1`.
`cov xs xs` is the diagonal entry (the variance). -/
def cov (xs ys : List ℚ) : ℚ :=
  (List.zipWith (fun a b => (a - mean xs) * (b - mean ys)) xs ys).sum /
    ((xs.length : ℚ) - 1)

/-- `get_corrcoef(inarray1, inarray2) = np.corrcoef(inarray1, inarray2)[0, 1]`.
`np.corrcoef` divides the off-diagonal covariance by the product of the
square roots of the diagonal entries and clips the result to `[-1, 1]`.
When a diagonal entry is zero the float division yields NaN (the numerator
is then also zero), modelled as `none`. -/
noncomputable def get_corrcoef (xs ys : List ℚ) : Option ℝ :=
  if cov xs xs = 0 ∨ cov ys ys = 0 then none
  else
    some (min (max (((cov xs ys : ℚ) : ℝ) /
      (Real.sqrt ((cov xs xs : ℚ) : ℝ) * Real.sqrt ((cov ys ys : ℚ) : ℝ))) (-1)) 1)

/-! ### Helper lemmas about `cov` -/

lemma cov_self_nonneg (xs : List ℚ) : 0 ≤ cov xs xs := by
  rcases xs with _ | ⟨a, rest⟩
  · simp [cov]
  · unfold cov
    rw [List.zipWith_same]
    apply div_nonneg
    · apply List.sum_nonneg
      intro x hx
      obtain ⟨y, _, rfl⟩ := List.mem_map.mp hx
      exact mul_self_nonneg _
    · have h1 : (0 : ℚ) ≤ (rest.length : ℚ) := Nat.cast_nonneg _
      simp only [List.length_cons]
      push_cast
      linarith

lemma cov_const_zero (xs : List ℚ) (c : ℚ) (h : ∀ x ∈ xs, x = c) :
    cov xs xs = 0 := by
  rcases xs with _ | ⟨a, rest⟩
  · simp [cov]
  · have hlen : ((a :: rest).length : ℚ) ≠ 0 := by
      simp only [List.length_cons]
      push_cast
      have h1 : (0 : ℚ) ≤ (rest.length : ℚ) := Nat.cast_nonneg _
      linarith
    have hmean : mean (a :: rest) = c := by
      unfold mean
      rw [List.sum_eq_card_nsmul _ c h, nsmul_eq_mul]
      exact mul_div_cancel_left₀ c hlen
    unfold cov
    rw [List.zipWith_same]
    have hz : ∀ x ∈ (a :: rest).map
        (fun t => (t - mean (a :: rest)) * (t - mean (a :: rest))), x = 0 := by
      intro x hx
      obtain ⟨y, hy, rfl⟩ := List.mem_map.mp hx
      rw [hmean, h y hy]
      ring
    rw [List.sum_eq_zero hz, zero_div]

lemma cov_comm (xs ys : List ℚ) (h : xs.length = ys.length) :
    cov xs ys = cov ys xs := by
  unfold cov
  rw [h]
  congr 1
  rw [List.zipWith_comm]
  have hfg : (fun (b a : ℚ) => (a - mean xs) * (b - mean ys)) =
      (fun (b a : ℚ) => (b - mean ys) * (a - mean xs)) := by
    funext b a
    ring
  rw [hfg]

lemma sum_map_neg_eq (l : List ℚ) (f : ℚ → ℚ) :
    (l.map (fun a => -(f a))).sum = -(l.map f).sum := by
  induction l with
  | nil => simp
  | cons a t ih => simp [ih]; ring

lemma mean_map_neg (xs : List ℚ) : mean (xs.map (fun a => -a)) = -mean xs := by
  unfold mean
  rw [List.length_map]
  have : (xs.map (fun a => -a)).sum = -xs.sum := by
    have := sum_map_neg_eq xs (fun a => a)
    simpa using this
  rw [this, neg_div]

lemma cov_neg_right (xs : List ℚ) :
    cov xs (xs.map (fun a => -a)) = -cov xs xs := by
  unfold cov
  rw [mean_map_neg, List.zipWith_map_right, List.zipWith_same, List.zipWith_same]
  rw [← neg_div]
  congr 1
  have hmap : xs.map (fun a => (a - mean xs) * (-a - -mean xs)) =
      xs.map (fun a => -((a - mean xs) * (a - mean xs))) := by
    apply List.map_congr_left
    intro a _
    ring
  rw [hmap, sum_map_neg_eq]

lemma cov_neg_neg (xs : List ℚ) :
    cov (xs.map (fun a => -a)) (xs.map (fun a => -a)) = cov xs xs := by
  unfold cov
  rw [mean_map_neg, List.length_map, List.zipWith_map_left, List.zipWith_map_right,
    List.zipWith_same, List.zipWith_same]
  congr 1
  apply congrArg List.sum
  apply List.map_congr_left
  intro a _
  ring

/-! ### Claims about `get_corrcoef` -/

/-- C1 (counterexample to the claim as stated): the constant series `[1, 1]`
is identical to itself and of equal length, yet `get_corrcoef` returns the
undefined value (NaN, embedded as `none`), not `1.0`: the claim's universal
quantification over all identical pairs fails on zero-variance series. -/
theorem get_corrcoef_identical_claim_false :
    get_corrcoef [1, 1] [1, 1] ≠ some 1 := by
  have h0 : cov [(1 : ℚ), 1] [1, 1] = 0 :=
    cov_const_zero [1, 1] 1 (by intro x hx; simpa using hx)
  unfold get_corrcoef
  rw [if_pos (Or.inl h0)]
  simp

/-- C1 (amended): for every pair of identical equal-length series whose
variance is nonzero, `get_corrcoef` returns exactly `1.0`. -/
theorem get_corrcoef_identical_eq_one (xs : List ℚ) (h : cov xs xs ≠ 0) :
    get_corrcoef xs xs = some 1 := by
  unfold get_corrcoef
  rw [if_neg (by tauto)]
  have hnn : (0 : ℝ) ≤ ((cov xs xs : ℚ) : ℝ) := by
    exact_mod_cast cov_self_nonneg xs
  have hpos : (0 : ℝ) < ((cov xs xs : ℚ) : ℝ) := by
    rcases lt_or_eq_of_le hnn with h1 | h1
    · exact h1
    · exact absurd (by exact_mod_cast h1.symm) h
  rw [Real.mul_self_sqrt hnn, div_self hpos.ne']
  norm_num

/-- C1 witness: the non-constant identical pair `([0, 1], [0, 1])` satisfies
the nonzero-variance hypothesis and yields correlation exactly `1.0`. -/
theorem get_corrcoef_identical_eq_one_witness :
    get_corrcoef [0, 1] [0, 1] = some 1 :=
  get_corrcoef_identical_eq_one [0, 1] (by norm_num [cov, mean])

/-- C2 (counterexample to the claim as stated): `[-1, -1]` is the negation
of `[1, 1]`, yet both series have zero variance, so `get_corrcoef` returns
the undefined value (NaN, embedded as `none`) rather than `-1.0`. -/
theorem get_corrcoef_negated_claim_false :
    get_corrcoef [1, 1] [-1, -1] ≠ some (-1) := by
  have h0 : cov [(1 : ℚ), 1] [1, 1] = 0 :=
    cov_const_zero [1, 1] 1 (by intro x hx; simpa using hx)
  unfold get_corrcoef
  rw [if_pos (Or.inl h0)]
  simp

/-- C2 (amended): for every series with nonzero variance, pairing it with
its pointwise negation (equal length by construction) yields correlation
exactly `-1.0`. -/
theorem get_corrcoef_negated_eq_neg_one (xs : List ℚ) (h : cov xs xs ≠ 0) :
    get_corrcoef xs (xs.map (fun a => -a)) = some (-1) := by
  unfold get_corrcoef
  rw [cov_neg_neg, cov_neg_right]
  rw [if_neg (by tauto)]
  have hnn : (0 : ℝ) ≤ ((cov xs xs : ℚ) : ℝ) := by
    exact_mod_cast cov_self_nonneg xs
  have hpos : (0 : ℝ) < ((cov xs xs : ℚ) : ℝ) := by
    rcases lt_or_eq_of_le hnn with h1 | h1
    · exact h1
    · exact absurd (by exact_mod_cast h1.symm) h
  rw [Real.mul_self_sqrt hnn]
  push_cast
  rw [neg_div, div_self hpos.ne']
  norm_num

/-- C2 witness: the pair `([0, 1], [-0, -1])` (negation of a non-constant
series) yields correlation exactly `-1.0`. -/
theorem get_corrcoef_negated_eq_neg_one_witness :
    get_corrcoef [0, 1] ([(0 : ℚ), 1].map (fun a => -a)) = some (-1) :=
  get_corrcoef_negated_eq_neg_one [0, 1] (by norm_num [cov, mean])

/-- C3: for every equal-length input pair in which at least one series has
zero variance (all its values equal), the correlation computation returns
the undefined value `none` (NaN): it is a total function, so no exception is
raised — matching `np.seterr(divide='ignore', invalid='ignore')` which turns
the invalid float division into a silent NaN. -/
theorem get_corrcoef_zero_variance_none (xs ys : List ℚ)
    (hlen : xs.length = ys.length)
    (h : (∃ c, ∀ x ∈ xs, x = c) ∨ (∃ c, ∀ y ∈ ys, y = c)) :
    get_corrcoef xs ys = none := by
  unfold get_corrcoef
  rw [if_pos]
  rcases h with ⟨c, hc⟩ | ⟨c, hc⟩
  · exact Or.inl (cov_const_zero xs c hc)
  · exact Or.inr (cov_const_zero ys c hc)

/-- C3 witness: the constant series `[2, 2]` paired with `[0, 1]` yields
the undefined value `none`. -/
theorem get_corrcoef_zero_variance_none_witness :
    get_corrcoef [2, 2] [0, 1] = none :=
  get_corrcoef_zero_variance_none [2, 2] [0, 1] (by norm_num)
    (Or.inl ⟨2, by intro x hx; simpa using hx⟩)

/-- C9: `get_corrcoef` is symmetric in its two arguments for every pair of
equal-length series. -/
theorem get_corrcoef_comm (xs ys : List ℚ) (h : xs.length = ys.length) :
    get_corrcoef xs ys = get_corrcoef ys xs := by
  unfold get_corrcoef
  by_cases hc : cov xs xs = 0 ∨ cov ys ys = 0
  · rw [if_pos hc, if_pos hc.symm]
  · rw [if_neg hc, if_neg (fun h2 => hc h2.symm)]
    rw [cov_comm xs ys h,
      mul_comm (Real.sqrt ((cov xs xs : ℚ) : ℝ)) (Real.sqrt ((cov ys ys : ℚ) : ℝ))]

/-- C9 witness: symmetry instantiated at the equal-length pair
`([0, 1], [3, 7])`. -/
theorem get_corrcoef_comm_witness :
    get_corrcoef [0, 1] [3, 7] = get_corrcoef [3, 7] [0, 1] :=
  get_corrcoef_comm [0, 1] [3, 7] (by norm_num)

/-! ## Cells 5 and 9: assigned time axes, and cell 19: year slicing

`cftime.num2date(k, 'months since YYYY-1-15', '360_day')` yields the date
`(YYYY + k / 12, 1 + k % 12, day 15)` in the 360-day calendar; a time
instant is modelled by its `(year, month)` pair (the day is always 15).
Selecting `.sel(time=slice(str(year), str(year)))` keeps exactly the
instants whose year equals `year`. -/

/-- Cell 5: CMIP6 time axis, `np.arange(0, (2014-1850+1)*12)` months since
1850-01-15 in the 360-day calendar. -/
def cmip6_times : List (ℕ × ℕ) :=
  (List.range ((2014 - 1850 + 1) * 12)).map (fun k => (1850 + k / 12, 1 + k % 12))

/-- Cell 9: ERA5 time axis, `np.arange(0, (2020-1979+1)*12)` months since
1979-01-15 in the 360-day calendar, trimmed by its last two entries
(`time_360_ref[0:time_360_ref.size-2]`). -/
def era5_times : List (ℕ × ℕ) :=
  ((List.range ((2020 - 1979 + 1) * 12)).map (fun k => (1979 + k / 12, 1 + k % 12))).take
    ((2020 - 1979 + 1) * 12 - 2)

/-- Cell 19: `.sel(time=slice(str(year), str(year)))` on an assigned time
axis keeps the instants of that calendar year. -/
def yearSlice (ts : List (ℕ × ℕ)) (y : ℕ) : List (ℕ × ℕ) :=
  ts.filter (fun t => t.1 = y)

set_option maxRecDepth 100000 in
set_option maxHeartbeats 4000000 in
/-- C4: for every year in the loop range 1979..2014, the CMIP6 year slice
and the ERA5 year slice consist of the same 12 assigned monthly instants,
so the per-cell series handed to `get_corrcoef` have identical length. -/
theorem year_slices_aligned (y : ℕ) (h1 : 1979 ≤ y) (h2 : y ≤ 2014) :
    yearSlice cmip6_times y = yearSlice era5_times y ∧
      (yearSlice cmip6_times y).length = 12 := by
  have key : ∀ i < 36, yearSlice cmip6_times (1979 + i) = yearSlice era5_times (1979 + i) ∧
      (yearSlice cmip6_times (1979 + i)).length = 12 := by decide
  have hy : y = 1979 + (y - 1979) := by omega
  rw [hy]
  exact key (y - 1979) (by omega)

/-- C4 witness: the year 2000 slices agree and have 12 entries each. -/
theorem year_slices_aligned_witness :
    yearSlice cmip6_times 2000 = yearSlice era5_times 2000 ∧
      (yearSlice cmip6_times 2000).length = 12 :=
  year_slices_aligned 2000 (by norm_num) (by norm_num)

/-! ## Cell 19: frame generation loop, and cell 21: GIF assembly and cleanup -/

/-- Cell 19: `plt.savefig(f"output/Correlation_of_Pr_CMIP6_vs_ERA5_{year}.png")`. -/
def frameName (year : ℕ) : String :=
  "output/Correlation_of_Pr_CMIP6_vs_ERA5_" ++ toString year ++ ".png"

/-- Cell 19: the loop `for i in range(36): year = 1979 + i` writes one frame
file per iteration; the files present in the output directory after the
loop, in creation order. -/
def frameFiles : List String :=
  (List.range 36).map (fun i => frameName (1979 + i))

/-- Lexicographic comparison of character lists by Unicode code point, as
Python compares strings in `sorted`. -/
def lexLe : List Char → List Char → Bool
  | [], _ => true
  | _ :: _, [] => false
  | a :: as, b :: bs =>
    if a.toNat < b.toNat then true
    else if b.toNat < a.toNat then false
    else lexLe as bs

/-- Python `sorted` on filenames: a stable sort by lexicographic string
order. -/
def pySorted (xs : List String) : List String :=
  List.insertionSort (fun s t => lexLe s.data t.data = true) xs

/-- `strStarts p s` holds when the character list `p` is an initial segment
of `s` (used to model the fixed leading part of the glob pattern). -/
def strStarts : List Char → List Char → Bool
  | [], _ => true
  | _ :: _, [] => false
  | a :: as, b :: bs => a == b && strStarts as bs

/-- `strEnds p s` holds when the character list `p` is a final segment of
`s` (used to model the fixed trailing part of the glob pattern). -/
def strEnds (p s : List Char) : Bool :=
  strStarts p.reverse s.reverse

/-- Cell 21: `glob.glob('output/Correlation_of_Pr_CMIP6_vs_ERA5_*.png')`
over the files of a directory: keeps the names with the fixed leading
segment, anything in place of `*`, and the trailing `.png`. -/
def globFrames (files : List String) : List String :=
  files.filter
    (fun s => strStarts "output/Correlation_of_Pr_CMIP6_vs_ERA5_".data s.data &&
      strEnds ".png".data s.data)

/-- Cell 21: the frame list encoded into `output/correlation.gif`
(`img, *imgs = [Image.open(f) for f in sorted(glob.glob(...))]` followed by
`img.save(..., append_images=imgs)`): the sorted glob of the directory as it
stands after the frame loop. -/
def gifFrames : List String := pySorted (globFrames frameFiles)

/-- C5: the frame loop produces exactly 36 uniquely named files, the i-th
one named by the fixed pattern embedding the year `1979 + i`. -/
theorem frame_files_spec :
    frameFiles.length = 36 ∧ frameFiles.Nodup ∧
      ∀ i, i < 36 → frameFiles[i]? = some (frameName (1979 + i)) := by
  refine ⟨by decide, by decide, ?_⟩
  decide

/-- C5 witness: the first frame file is the 1979 frame. -/
theorem frame_files_spec_witness :
    frameFiles[0]? = some (frameName 1979) :=
  frame_files_spec.2.2 0 (by norm_num)

/-- C6: the GIF contains exactly 36 frames, and lexically sorting the glob
of the frame filenames yields exactly the frames in ascending year order
1979..2014 (the four-digit year embedded in the fixed naming pattern makes
lexical order chronological). -/
theorem gif_frames_chronological :
    gifFrames.length = 36 ∧
      gifFrames = (List.range 36).map (fun i => frameName (1979 + i)) := by
  constructor
  · decide
  · decide

/-- Cell 19: the output directory contents after the frame loop (the
directory is created empty when absent, then each iteration adds one
frame). -/
def outputAfterFrames : List String := frameFiles

/-- Cell 21, first half: `img.save(fp='output/correlation.gif', ...)` adds
the GIF to the output directory. -/
def outputAfterGif : List String := outputAfterFrames ++ ["output/correlation.gif"]

/-- Cell 21, second half: `del_files = glob.glob('output/Correlation_of_Pr_CMIP6_vs_ERA5_*.png')`
followed by `os.remove(file)` for each match deletes every file matching
the per-year pattern. -/
def outputAfterCleanup : List String :=
  outputAfterGif.filter (fun f => !(f ∈ globFrames outputAfterGif))

/-- C8: after cleanup, no per-year frame image remains: the animation
artifact `output/correlation.gif` is the only file left in the output
directory. -/
theorem cleanup_leaves_only_gif :
    outputAfterCleanup = ["output/correlation.gif"] := by
  decide

/-! ## Cell 11: spatial interpolation `ds_tp_mon.interp(lat=new_lat, lon=new_lon)`

xarray's default `interp` method is (multi)linear: along one axis, a target
coordinate `t` between source nodes `x1 ≤ t ≤ x2` receives
`v1 + (v2 - v1) * (t - x1) / (x2 - x1)`, a target outside the source range
receives NaN, and a NaN operand propagates. A 2-D grid is interpolated
separably: first each row along longitude, then the column of row results
along latitude. Node values are `Option ℚ`, with `none` for NaN. -/

/-- One-dimensional piecewise linear interpolation over the node list
`(coordinate, value)`, the coordinates strictly increasing in use. -/
def interp1 : List (ℚ × Option ℚ) → ℚ → Option ℚ
  | [], _ => none
  | [(x, v)], t => if t = x then v else none
  | (x1, v1) :: (x2, v2) :: tl, t =>
    if t < x1 then none
    else if t ≤ x2 then
      match v1, v2 with
      | some a, some b => some (a + (b - a) * (t - x1) / (x2 - x1))
      | _, _ => none
    else interp1 ((x2, v2) :: tl) t

/-- Hitting a node of a strictly increasing coordinate list exactly returns
that node's value. -/
lemma interp1_mem : ∀ (l : List (ℚ × ℚ)),
    List.Pairwise (fun p q => p.1 < q.1) l →
    ∀ x v, (x, v) ∈ l →
    interp1 (l.map (fun p => (p.1, some p.2))) x = some v := by
  intro l
  induction l with
  | nil =>
    intro _ x v hm
    simp at hm
  | cons p tl ih =>
    intro hpw x v hm
    obtain ⟨px, pv⟩ := p
    rw [List.pairwise_cons] at hpw
    obtain ⟨hall, hpw2⟩ := hpw
    cases tl with
    | nil =>
      simp only [List.mem_singleton, Prod.mk.injEq] at hm
      obtain ⟨rfl, rfl⟩ := hm
      simp [interp1]
    | cons q tl2 =>
      obtain ⟨qx, qv⟩ := q
      have hpq : px < qx := hall (qx, qv) (by simp)
      simp only [List.map_cons]
      rcases List.mem_cons.mp hm with heq | hm2
      · simp only [Prod.mk.injEq] at heq
        obtain ⟨rfl, rfl⟩ := heq
        simp only [interp1]
        rw [if_neg (lt_irrefl x), if_pos (le_of_lt hpq)]
        simp
      · rcases List.mem_cons.mp hm2 with heq2 | hm3
        · simp only [Prod.mk.injEq] at heq2
          obtain ⟨rfl, rfl⟩ := heq2
          simp only [interp1]
          rw [if_neg (lt_asymm hpq), if_pos (le_refl x)]
          have hne : x - px ≠ 0 := sub_ne_zero_of_ne (ne_of_gt hpq)
          rw [mul_div_assoc, div_self hne, mul_one]
          congr 1
          ring
        · have hq_lt : qx < x := by
            rw [List.pairwise_cons] at hpw2
            exact hpw2.1 (x, v) hm3
          have hp_lt : px < x := hall (x, v) (List.mem_cons_of_mem _ hm3)
          simp only [interp1]
          rw [if_neg (lt_asymm hp_lt), if_neg (not_le.mpr hq_lt)]
          exact ih hpw2 x v hm2

/-- Zipping with `some`-wrapped values commutes with pair-wrapping. -/
lemma zip_map_some (xs vs : List ℚ) :
    xs.zip (vs.map some) = (xs.zip vs).map (fun p => (p.1, some p.2)) := by
  induction xs generalizing vs with
  | nil => simp
  | cons a tl ih =>
    cases vs with
    | nil => simp
    | cons b vtl => simp [ih]

/-- Index form of `interp1_mem`: interpolating a strictly increasing
coordinate list at its `i`-th coordinate returns the `i`-th value. -/
lemma interp1_zip_get (xs vs : List ℚ) (hpw : List.Pairwise (· < ·) xs)
    (hlen : xs.length = vs.length) (i : ℕ) (hi : i < xs.length) :
    interp1 (xs.zip (vs.map some)) (xs.get ⟨i, hi⟩) =
      some (vs.get ⟨i, hlen ▸ hi⟩) := by
  rw [zip_map_some]
  apply interp1_mem
  · have hmap : (xs.zip vs).map Prod.fst = xs :=
      List.map_fst_zip xs vs (le_of_eq hlen)
    rw [← hmap] at hpw
    exact List.pairwise_map.mp hpw
  · have hvi : i < vs.length := by omega
    have hzl : i < (xs.zip vs).length := by
      rw [List.length_zip]
      omega
    have h2 : (xs.zip vs).get ⟨i, hzl⟩ = (xs.get ⟨i, hi⟩, vs.get ⟨i, hvi⟩) := by
      simp [List.getElem_zip]
    rw [← h2]
    exact List.getElem_mem hzl

/-- Cell 11, inner axis: one row of the dataset interpolated along
longitude. -/
def interpRow (lons row : List ℚ) (lo : ℚ) : Option ℚ :=
  interp1 (lons.zip (row.map some)) lo

/-- Cell 11: separable bilinear interpolation of the gridded values (rows
indexed by latitude, columns by longitude): each row is interpolated along
longitude, then the column of row results along latitude. -/
def interpGrid (lats lons : List ℚ) (grid : List (List ℚ)) (la lo : ℚ) : Option ℚ :=
  interp1 (lats.zip (grid.map (fun row => interpRow lons row lo))) la

/-- C7: when the interpolation target grid is the source grid itself
(co-located grids), interpolation is a no-op: at every grid cell `(i, j)`
the remapped value equals the source value. -/
theorem interp_colocated_noop (lats lons : List ℚ) (grid : List (List ℚ))
    (hlat : List.Pairwise (· < ·) lats) (hlon : List.Pairwise (· < ·) lons)
    (hg : grid.length = lats.length) (hrow : ∀ r ∈ grid, r.length = lons.length)
    (i j : ℕ) (hi : i < lats.length) (hj : j < lons.length) :
    interpGrid lats lons grid (lats.get ⟨i, hi⟩) (lons.get ⟨j, hj⟩) =
      some ((grid.getD i []).getD j 0) := by
  unfold interpGrid
  have hcols : grid.map (fun row => interpRow lons row (lons.get ⟨j, hj⟩)) =
      (grid.map (fun row => row.getD j 0)).map some := by
    rw [List.map_map]
    apply List.map_congr_left
    intro r hr
    have hr_len : lons.length = r.length := (hrow r hr).symm
    have hjr : j < r.length := by omega
    unfold interpRow
    rw [interp1_zip_get lons r hlon hr_len j hj]
    simp only [Function.comp_apply]
    rw [List.getD_eq_getElem r 0 hjr]
    rfl
  rw [hcols]
  have hlen2 : lats.length = (grid.map (fun row => row.getD j 0)).length := by
    rw [List.length_map]
    omega
  rw [interp1_zip_get lats (grid.map (fun row => row.getD j 0)) hlat hlen2 i hi]
  have hgi : i < grid.length := by omega
  have hmapget : (grid.map (fun row => row.getD j 0)).get ⟨i, hlen2 ▸ hi⟩ =
      (grid.getD i []).getD j 0 := by
    rw [List.get_eq_getElem, List.getElem_map, List.getD_eq_getElem grid [] hgi]
  rw [hmapget]

/-- C7 witness: on the co-located 2×2 grid with latitudes `[0, 1]` and
longitudes `[0, 1]`, interpolating at cell `(1, 0)` returns the stored
value `30`. -/
theorem interp_colocated_noop_witness :
    interpGrid [0, 1] [0, 1] [[10, 20], [30, 40]] 1 0 = some 30 := by
  have h := interp_colocated_noop [0, 1] [0, 1] [[10, 20], [30, 40]]
    (by norm_num [List.pairwise_cons]) (by norm_num [List.pairwise_cons])
    (by norm_num)
    (by intro r hr; rcases List.mem_cons.mp hr with rfl | hr2 <;>
      simp_all)
    1 0 (by norm_num) (by norm_num)
  simpa using h

/-! ## Cell 9: longitude re-centering -/

/-- Cell 9: `ds_tp_mon.assign_coords(lon=ds_tp_mon.lon+180)`: every
longitude coordinate is shifted by exactly 180, with no modulo-360
wrapping. -/
def recenterLon (lons : List ℚ) : List ℚ := lons.map (fun x => x + 180)

/-- C10: the re-assigned longitude axis is the original axis translated by
exactly `+180` entrywise (same length, i-th entry shifted by 180), and the
whole value range translates upward by 180 instead of being recentered
into `[0, 360)`. -/
theorem recenter_lon_shift (lons : List ℚ) :
    (recenterLon lons).length = lons.length ∧
      (∀ i, i < lons.length → (recenterLon lons)[i]? = some (lons.getD i 0 + 180)) ∧
      (∀ a b, (∀ x ∈ lons, a ≤ x ∧ x ≤ b) →
        ∀ y ∈ recenterLon lons, a + 180 ≤ y ∧ y ≤ b + 180) := by
  refine ⟨List.length_map _ _, ?_, ?_⟩
  · intro i hi
    unfold recenterLon
    rw [List.getElem?_map]
    have hsome : lons[i]? = some (lons.getD i 0) := by
      rw [List.getD_eq_getElem lons 0 hi]
      exact List.getElem?_eq_getElem hi
    rw [hsome]
    rfl
  · intro a b hab y hy
    unfold recenterLon at hy
    obtain ⟨x, hx, rfl⟩ := List.mem_map.mp hy
    obtain ⟨h1, h2⟩ := hab x hx
    constructor <;> linarith

/-- C10 witness: the ERA5-style longitude `200` is mapped to `380`, outside
`[0, 360)` — the shift really does not wrap. -/
theorem recenter_lon_shift_witness :
    (recenterLon [10, 200])[1]? = some 380 := by
  rw [(recenter_lon_shift [10, 200]).2.1 1 (by norm_num)]
  norm_num
